import Mathlib

/-!
Shallow embedding of the HeatBGMapGenerator geometry pipeline
(`main.py`: `HeatTrackGenerator`, and `app.py`: the segment mutation
endpoints), with theorems checking the natural-language specification
against it.

Floating-point arithmetic of the source is idealised as exact real
arithmetic; `np.linalg.norm` of a 2-vector is `Real.sqrt (dx^2 + dy^2)`.
Python exceptions are modelled with `Except`; dictionaries with fixed
key sets are modelled as structures (a key read with a `.get` default is
a field initialised to that default).
-/

open scoped Classical

/-- A 2D point, as the `(x, y)` tuples of the source. -/
abbrev Point : Type := ℝ × ℝ

/-- Euclidean distance `np.linalg.norm(q - p)` between two points. -/
noncomputable def ptDist (p q : Point) : ℝ :=
  Real.sqrt ((q.1 - p.1) ^ 2 + (q.2 - p.2) ^ 2)

/-- Errors raised by the pipeline.  `valueError` is the explicit
`raise ValueError` for a missing centerline; `geometryError` stands for
the error surfaced when the geometry library rejects a degenerate
centerline; `indexError` is a Python `IndexError` from list indexing. -/
inductive Err where
  | valueError
  | geometryError
  | indexError
deriving DecidableEq

/-- A segment division record, as built by
`HeatTrackGenerator.divide_track_into_segments` (main.py:222-228).
`is_curve` and `speed_limit` are written later by `mark_curve`
(app.py:278-284); before that the dict lacks the keys and every read
uses the defaults `False` / absent, so the fields start at those
defaults. -/
structure Segment where
  segment_number : ℕ
  center_point : Point
  line_start : Point
  line_end : Point
  distance : ℝ
  is_curve : Bool := false
  speed_limit : Option ℤ := none

/-- Default segment value used for total indexing of segment lists. -/
noncomputable def segDefault : Segment :=
  { segment_number := 0, center_point := ((0:ℝ), (0:ℝ)),
    line_start := ((0:ℝ), (0:ℝ)), line_end := ((0:ℝ), (0:ℝ)), distance := 0 }

/-- Helper for `cumDist`: the tail of the cumulative-distance table,
given the previous point and the distance accumulated so far
(main.py:180-184). -/
noncomputable def cumDistAux (prev : Point) (acc : ℝ) : List Point → List ℝ
  | [] => []
  | q :: rest => (acc + ptDist prev q) :: cumDistAux q (acc + ptDist prev q) rest

/-- Cumulative arc-length table `distances` of
`divide_track_into_segments` (main.py:179-184): starts at `[0]`, then
appends `distances[-1] + |points[i] - points[i-1]|` for each further
point. -/
noncomputable def cumDist : List Point → List ℝ
  | [] => [0]
  | p :: rest => 0 :: cumDistAux p 0 rest

/-- Python `int()` applied to a real: truncation toward zero. -/
noncomputable def truncInt (x : ℝ) : ℤ :=
  if 0 ≤ x then ⌊x⌋ else -⌊-x⌋

/-- Helper for `findInterval`: linear scan (main.py:199-200) carrying
the index of the head of the remaining table. -/
noncomputable def findIntervalAux (t : ℝ) : ℕ → List ℝ → Option ℕ
  | j, a :: b :: rest =>
      if a ≤ t ∧ t ≤ b then some j else findIntervalAux t (j + 1) (b :: rest)
  | _, _ => none

/-- The linear scan `for j in range(len(distances) - 1)` of
main.py:199-200: first `j` with `distances[j] <= target <= distances[j+1]`,
`none` when no interval contains the target. -/
noncomputable def findInterval (dists : List ℝ) (t : ℝ) : Option ℕ :=
  findIntervalAux t 0 dists

/-- One iteration of the boundary-placement loop
(main.py:195-229) for loop index `i` and `target = i * segment_length`:
locate the containing interval, interpolate the center point, and emit
the perpendicular cut-line when the local direction is non-zero.
Returns `none` when no interval contains the target or the direction
has zero length (the `direction_norm > 0` guard). -/
noncomputable def placeBoundary (pts : List Point) (dists : List ℝ) (W : ℝ)
    (i : ℕ) (target : ℝ) : Option Segment :=
  match findInterval dists target with
  | none => none
  | some j =>
    let dj := dists.getD j 0
    let dj1 := dists.getD (j + 1) 0
    let t := (target - dj) / (dj1 - dj)
    let p1 := pts.getD j ((0:ℝ), (0:ℝ))
    let p2 := pts.getD (j + 1) ((0:ℝ), (0:ℝ))
    let c : Point := (p1.1 + t * (p2.1 - p1.1), p1.2 + t * (p2.2 - p1.2))
    let d : Point := (p2.1 - p1.1, p2.2 - p1.2)
    let n := Real.sqrt (d.1 ^ 2 + d.2 ^ 2)
    if 0 < n then
      let u : Point := (d.1 / n, d.2 / n)
      let perp : Point := (-u.2, u.1)
      some { segment_number := i, center_point := c,
             line_start := (c.1 - perp.1 * (W / 2), c.2 - perp.2 * (W / 2)),
             line_end := (c.1 + perp.1 * (W / 2), c.2 + perp.2 * (W / 2)),
             distance := target }
    else none

/-- The full placement loop of main.py:186-229 before the closed-loop
trim: `num_segments = int(total_length / segment_length)` and one
placement attempt for each `i in range(num_segments + 1)`.  (For a
negative count Python `range` is empty, hence the `Int.toNat`.) -/
noncomputable def preTrim (pts : List Point) (W S : ℝ) : List Segment :=
  (List.range (truncInt ((cumDist pts).getLastD 0 / S) + 1).toNat).filterMap
    (fun i => placeBoundary pts (cumDist pts) W i ((i : ℝ) * S))

/-- The closed-loop trim of main.py:231-254, mirroring the nested
conditionals: when the centerline is non-empty, its last point is
within `track_width` of its first, more than one boundary was placed
(and, redundantly re-checked, at least two), and the last boundary's
center is within `segment_length` of the first boundary's center, the
last boundary is popped. -/
noncomputable def trimClosed (pts : List Point) (W S : ℝ)
    (divs : List Segment) : List Segment :=
  if 0 < pts.length then
    if ptDist (pts.headD ((0:ℝ), (0:ℝ))) (pts.getLastD ((0:ℝ), (0:ℝ))) < W
        ∧ 1 < divs.length then
      if 2 ≤ divs.length then
        if ptDist (divs.headD segDefault).center_point
            (divs.getLastD segDefault).center_point < S then
          divs.dropLast
        else divs
      else divs
    else divs
  else divs

/-- Renumbering loop of main.py:256-258 starting at `k`:
`segment['segment_number'] = i + 1` over `enumerate`. -/
def renumberFrom (k : ℕ) : List Segment → List Segment
  | [] => []
  | s :: rest => { s with segment_number := k } :: renumberFrom (k + 1) rest

/-- Renumbering of the surviving boundaries, contiguous from 1. -/
def renumber (l : List Segment) : List Segment := renumberFrom 1 l

/-- `HeatTrackGenerator.divide_track_into_segments` (main.py:166-263):
raises `ValueError` when no centerline points are available, otherwise
places boundaries, applies the closed-loop trim and renumbers. -/
noncomputable def divideTrack (pts : List Point) (W S : ℝ) :
    Except Err (List Segment) :=
  if pts = [] then .error .valueError
  else .ok (renumber (trimClosed pts W S (preTrim pts W S)))

/-- Checked division: `none` exactly when the code would divide by
zero at this spot. -/
noncomputable def divCk (a b : ℝ) : Option ℝ :=
  if b = 0 then none else some (a / b)

/-- The placement iteration of `placeBoundary` with every division
routed through `divCk`: the outer `none` signals that a division by a
zero denominator was attempted; `some o` says no division by zero
happened and the iteration produced `o`. -/
noncomputable def placeBoundaryCk (pts : List Point) (dists : List ℝ) (W : ℝ)
    (i : ℕ) (target : ℝ) : Option (Option Segment) :=
  match findInterval dists target with
  | none => some none
  | some j =>
    let dj := dists.getD j 0
    let dj1 := dists.getD (j + 1) 0
    match divCk (target - dj) (dj1 - dj) with
    | none => none
    | some t =>
      let p1 := pts.getD j ((0:ℝ), (0:ℝ))
      let p2 := pts.getD (j + 1) ((0:ℝ), (0:ℝ))
      let c : Point := (p1.1 + t * (p2.1 - p1.1), p1.2 + t * (p2.2 - p1.2))
      let d : Point := (p2.1 - p1.1, p2.2 - p1.2)
      let n := Real.sqrt (d.1 ^ 2 + d.2 ^ 2)
      if 0 < n then
        match divCk d.1 n, divCk d.2 n with
        | some u1, some u2 =>
          let perp : Point := (-u2, u1)
          some (some
            { segment_number := i, center_point := c,
              line_start := (c.1 - perp.1 * (W / 2), c.2 - perp.2 * (W / 2)),
              line_end := (c.1 + perp.1 * (W / 2), c.2 + perp.2 * (W / 2)),
              distance := target })
        | _, _ => none
      else some none

/-- Local direction estimate of `_manual_offset_calculation`
(main.py:134-144): one-sided difference at the two ends (the `i == 0`
branch is tested first), central difference `points[i+1] - points[i-1]`
for interior points; `none` when an index is out of range (a Python
`IndexError`). -/
def tangentAt (pts : List Point) (i : ℕ) : Option Point :=
  match pts[i]? with
  | none => none
  | some current =>
    if i = 0 then
      (pts[i + 1]?).map (fun nx => (nx.1 - current.1, nx.2 - current.2))
    else if i = pts.length - 1 then
      (pts[i - 1]?).map (fun pv => (current.1 - pv.1, current.2 - pv.2))
    else
      match pts[i - 1]?, pts[i + 1]? with
      | some pv, some nx => some (nx.1 - pv.1, nx.2 - pv.2)
      | _, _ => none

/-- One iteration of the fallback loop of `_manual_offset_calculation`
(main.py:131-159): `.ok (some (left, right))` when the normalised
perpendicular offset pair is appended, `.ok none` when the
`direction_norm > 0` guard fails and the point is skipped, `.error`
when indexing fails. -/
noncomputable def offsetAt (pts : List Point) (off : ℝ) (i : ℕ) :
    Except Err (Option (Point × Point)) :=
  match pts[i]?, tangentAt pts i with
  | some current, some dir =>
    let n := Real.sqrt (dir.1 ^ 2 + dir.2 ^ 2)
    if 0 < n then
      let u : Point := (dir.1 / n, dir.2 / n)
      let perp : Point := (-u.2, u.1)
      .ok (some ((current.1 + perp.1 * off, current.2 + perp.2 * off),
                 (current.1 - perp.1 * off, current.2 - perp.2 * off)))
    else .ok none
  | _, _ => .error .indexError

/-- The iteration of `offsetAt` with the two normalisation divisions
routed through `divCk`; outer `none` signals an attempted division by
zero. -/
noncomputable def offsetAtCk (pts : List Point) (off : ℝ) (i : ℕ) :
    Option (Except Err (Option (Point × Point))) :=
  match pts[i]?, tangentAt pts i with
  | some current, some dir =>
    let n := Real.sqrt (dir.1 ^ 2 + dir.2 ^ 2)
    if 0 < n then
      match divCk dir.1 n, divCk dir.2 n with
      | some u1, some u2 =>
        let perp : Point := (-u2, u1)
        some (.ok (some ((current.1 + perp.1 * off, current.2 + perp.2 * off),
                         (current.1 - perp.1 * off, current.2 - perp.2 * off))))
      | _, _ => none
    else some (.ok none)
  | _, _ => some (.error .indexError)

/-- Runs `offsetAt` over the given loop indices, collecting the emitted
`(left, right)` pairs in order and propagating the first error. -/
noncomputable def collectOffsets (pts : List Point) (off : ℝ) :
    List ℕ → Except Err (List (Point × Point))
  | [] => .ok []
  | i :: rest =>
    match offsetAt pts off i with
    | .error e => .error e
    | .ok none => collectOffsets pts off rest
    | .ok (some pr) =>
      match collectOffsets pts off rest with
      | .error e => .error e
      | .ok l => .ok (pr :: l)

/-- `HeatTrackGenerator._manual_offset_calculation` (main.py:122-164):
loops `i in range(len(points))`, appending the left and right offset
points in lockstep. -/
noncomputable def manualOffset (pts : List Point) (off : ℝ) :
    Except Err (List Point × List Point) :=
  match collectOffsets pts off (List.range pts.length) with
  | .error e => .error e
  | .ok prs => .ok (prs.map Prod.fst, prs.map Prod.snd)

/-- Modelled from the spec: `HeatTrackGenerator.generate_track_borders`
(main.py:72-120) builds a shapely `LineString` from the centerline and
runs `parallel_offset` (the primary algorithm) inside a `try`, falling
back to `_manual_offset_calculation` on any error.  Shapely is external
to the repository; the primary algorithm is therefore a parameter, and
the `LineString` constructor's rejection of a centerline with fewer
than 2 points — raised before the `try`, hence never caught — is the
spec's `GeometryError`.  The empty-centerline `ValueError`
(main.py:79-80) comes first. -/
noncomputable def generateTrackBorders
    (primary : List Point → ℝ → Except Unit (List Point × List Point))
    (pts : List Point) (W : ℝ) : Except Err (List Point × List Point) :=
  if pts = [] then .error .valueError
  else if pts.length < 2 then .error .geometryError
  else
    match primary pts (W / 2) with
    | .ok res => .ok res
    | .error _ => manualOffset pts (W / 2)

/-- The `mark_curve` endpoint loop (app.py:278-284): every segment
whose number lies in `[start_segment, end_segment]` gets
`is_curve = True` and the given speed limit; any other segment gets
`is_curve` rewritten to its current value (default `False`), i.e. is
left unchanged. -/
def markCurve (a b v : ℤ) (segs : List Segment) : List Segment :=
  segs.map fun s =>
    if a ≤ (s.segment_number : ℤ) ∧ (s.segment_number : ℤ) ≤ b then
      { s with is_curve := true, speed_limit := some v }
    else
      { s with is_curve := s.is_curve }

/-- The inner loop of the `update_segments` endpoint (app.py:196-201)
for a single update: overwrite `center_point` of the first segment
whose number equals the given id, then `break`; nothing else is
recomputed. -/
def reposition (idn : ℤ) (p : Point) : List Segment → List Segment
  | [] => []
  | s :: rest =>
    if (s.segment_number : ℤ) = idn then { s with center_point := p } :: rest
    else s :: reposition idn p rest

/-- Modelled from the spec: an index `i` holds a "duplicate-adjacent"
point when the sample equals one of its consecutive neighbours
("duplicate consecutive points").  Used to state the spec's claim that
the fallback "omits exactly the duplicate-adjacent border points". -/
def dupAdjacent (pts : List Point) (i : ℕ) : Prop :=
  (i + 1 < pts.length ∧ pts.getD i ((0:ℝ), (0:ℝ)) = pts.getD (i + 1) ((0:ℝ), (0:ℝ)))
  ∨ (1 ≤ i ∧ i < pts.length ∧
      pts.getD (i - 1) ((0:ℝ), (0:ℝ)) = pts.getD i ((0:ℝ), (0:ℝ)))

/-! ## Generic helper lemmas -/

lemma sumSqPos {x y : ℝ} (h : ¬(x = 0 ∧ y = 0)) : 0 < x ^ 2 + y ^ 2 := by
  rcases not_and_or.mp h with hx | hy
  · exact lt_of_lt_of_le (pow_two_pos_of_ne_zero hx)
      (le_add_of_nonneg_right (sq_nonneg y))
  · exact lt_of_lt_of_le (pow_two_pos_of_ne_zero hy)
      (le_add_of_nonneg_left (sq_nonneg x))

lemma ptDist_nonneg (p q : Point) : 0 ≤ ptDist p q := Real.sqrt_nonneg _

lemma ptDist_pos {p q : Point} (h : p ≠ q) : 0 < ptDist p q := by
  unfold ptDist
  rw [Real.sqrt_pos]
  refine sumSqPos fun hc => h ?_
  have h1 : p.1 = q.1 := by linarith [hc.1]
  have h2 : p.2 = q.2 := by linarith [hc.2]
  exact Prod.ext h1 h2

lemma ptDist_eq_zero {p q : Point} (h : p = q) : ptDist p q = 0 := by
  subst h
  unfold ptDist
  norm_num

lemma unitPerpSq (d1 d2 : ℝ) (h : 0 < Real.sqrt (d1 ^ 2 + d2 ^ 2)) :
    (-(d2 / Real.sqrt (d1 ^ 2 + d2 ^ 2))) ^ 2
      + (d1 / Real.sqrt (d1 ^ 2 + d2 ^ 2)) ^ 2 = 1 := by
  have hpos : 0 < d1 ^ 2 + d2 ^ 2 := Real.sqrt_pos.mp h
  have hs : Real.sqrt (d1 ^ 2 + d2 ^ 2) ^ 2 = d1 ^ 2 + d2 ^ 2 :=
    Real.sq_sqrt hpos.le
  have hne : Real.sqrt (d1 ^ 2 + d2 ^ 2) ≠ 0 := ne_of_gt h
  field_simp
  linarith [hs]

lemma sqrtScaled (a x y : ℝ) (h : x ^ 2 + y ^ 2 = 1) :
    Real.sqrt ((a * x) ^ 2 + (a * y) ^ 2) = |a| := by
  have : (a * x) ^ 2 + (a * y) ^ 2 = a ^ 2 := by
    have : (a * x) ^ 2 + (a * y) ^ 2 = a ^ 2 * (x ^ 2 + y ^ 2) := by ring
    rw [this, h, mul_one]
  rw [this, Real.sqrt_sq_eq_abs]

lemma filterMapAllSome {α β : Type} (f : α → Option β) (g : α → β) :
    ∀ l : List α, (∀ a ∈ l, f a = some (g a)) → l.filterMap f = l.map g
  | [], _ => rfl
  | a :: l, h => by
    have ha := h a (List.mem_cons_self a l)
    simp only [List.filterMap_cons, ha, List.map_cons]
    rw [filterMapAllSome f g l fun x hx => h x (List.mem_cons_of_mem a hx)]

/-! ## Arc-length table lemmas -/

lemma cumDistAux_length (l : List Point) :
    ∀ (p : Point) (acc : ℝ), (cumDistAux p acc l).length = l.length := by
  induction l with
  | nil => intro p acc; rfl
  | cons q rest ih =>
    intro p acc
    simp only [cumDistAux, List.length_cons, ih]

lemma cumDist_length {pts : List Point} (h : pts ≠ []) :
    (cumDist pts).length = pts.length := by
  cases pts with
  | nil => exact absurd rfl h
  | cons p rest => simp only [cumDist, List.length_cons, cumDistAux_length]

lemma cumDist_getD_zero (pts : List Point) : (cumDist pts).getD 0 0 = 0 := by
  cases pts <;> rfl

lemma cumDistAux_adj (l : List Point) :
    ∀ (p : Point) (acc : ℝ) (j : ℕ), j + 1 < (p :: l).length →
      (acc :: cumDistAux p acc l).getD (j + 1) 0 =
        (acc :: cumDistAux p acc l).getD j 0
          + ptDist ((p :: l).getD j ((0:ℝ), (0:ℝ)))
              ((p :: l).getD (j + 1) ((0:ℝ), (0:ℝ))) := by
  induction l with
  | nil => intro p acc j h; simp at h
  | cons q rest ih =>
    intro p acc j h
    cases j with
    | zero => simp [cumDistAux]
    | succ m =>
      have hm : m + 1 < (q :: rest).length := by
        simpa [Nat.succ_lt_succ_iff] using h
      have := ih q (acc + ptDist p q) m hm
      simpa [cumDistAux] using this

lemma cumDist_adj {pts : List Point} {j : ℕ} (h : j + 1 < pts.length) :
    (cumDist pts).getD (j + 1) 0 =
      (cumDist pts).getD j 0
        + ptDist (pts.getD j ((0:ℝ), (0:ℝ))) (pts.getD (j + 1) ((0:ℝ), (0:ℝ))) := by
  cases pts with
  | nil => simp at h
  | cons p rest => exact cumDistAux_adj rest p 0 j h

lemma cumDist_adj_le {pts : List Point} {j : ℕ} (h : j + 1 < pts.length) :
    (cumDist pts).getD j 0 ≤ (cumDist pts).getD (j + 1) 0 := by
  rw [cumDist_adj h]
  exact le_add_of_nonneg_right (ptDist_nonneg _ _)

lemma cumDist_getD_nonneg (pts : List Point) :
    ∀ j : ℕ, j < pts.length → 0 ≤ (cumDist pts).getD j 0 := by
  intro j
  induction j with
  | zero => intro _; rw [cumDist_getD_zero]
  | succ m ih =>
    intro h
    have hm : m < pts.length := Nat.lt_of_succ_lt h
    calc (0:ℝ) ≤ (cumDist pts).getD m 0 := ih hm
    _ ≤ (cumDist pts).getD (m + 1) 0 := cumDist_adj_le h

/-! ## Interval-scan lemmas -/

lemma findIntervalAux_isSome (t : ℝ) :
    ∀ (d : List ℝ) (k : ℕ), 2 ≤ d.length → d.headD 0 ≤ t → t ≤ d.getLastD 0 →
      (findIntervalAux t k d).isSome = true
  | [], _, hlen, _, _ => by simp at hlen
  | [a], _, hlen, _, _ => by simp at hlen
  | a :: b :: rest, k, _, hhead, hlast => by
    by_cases hab : a ≤ t ∧ t ≤ b
    · simp [findIntervalAux, if_pos hab]
    · have ha : a ≤ t := by simpa using hhead
      have hbt : b < t := by
        rcases not_and_or.mp hab with h | h
        · exact absurd ha h
        · exact lt_of_not_le h
      cases rest with
      | nil =>
        exfalso
        have : t ≤ b := by simpa [List.getLastD] using hlast
        linarith
      | cons c rs =>
        have hrec := findIntervalAux_isSome t (b :: c :: rs) (k + 1)
          (by simp) (by simpa using hbt.le)
          (by simpa [List.getLastD] using hlast)
        simpa [findIntervalAux, if_neg hab] using hrec

lemma findIntervalAux_spec (t : ℝ) :
    ∀ (d : List ℝ) (k j : ℕ), findIntervalAux t k d = some j →
      ∃ m, j = k + m ∧ m + 1 < d.length ∧ d.getD m 0 ≤ t ∧ t ≤ d.getD (m + 1) 0
  | [], _, _, h => by simp [findIntervalAux] at h
  | [a], _, _, h => by simp [findIntervalAux] at h
  | a :: b :: rest, k, j, h => by
    by_cases hab : a ≤ t ∧ t ≤ b
    · refine ⟨0, ?_, by simp, by simpa using hab.1, by simpa using hab.2⟩
      have hkj : some k = some j := by simpa [findIntervalAux, if_pos hab] using h
      have := Option.some.inj hkj
      omega
    · have h' : findIntervalAux t (k + 1) (b :: rest) = some j := by
        simpa [findIntervalAux, if_neg hab] using h
      obtain ⟨m, hj, hlen, hle, hge⟩ := findIntervalAux_spec t (b :: rest) (k + 1) j h'
      exact ⟨m + 1, by omega, by simpa using Nat.succ_lt_succ hlen,
        by simpa using hle, by simpa using hge⟩

lemma findInterval_spec {dists : List ℝ} {t : ℝ} {j : ℕ}
    (h : findInterval dists t = some j) :
    j + 1 < dists.length ∧ dists.getD j 0 ≤ t ∧ t ≤ dists.getD (j + 1) 0 := by
  obtain ⟨m, hm, hlen, hle, hge⟩ := findIntervalAux_spec t dists 0 j h
  have : j = m := by omega
  subst this
  exact ⟨hlen, hle, hge⟩

lemma findInterval_isSome {dists : List ℝ} {t : ℝ} (hlen : 2 ≤ dists.length)
    (hhead : dists.headD 0 ≤ t) (hlast : t ≤ dists.getLastD 0) :
    ∃ j, findInterval dists t = some j := by
  have := findIntervalAux_isSome t dists 0 hlen hhead hlast
  exact Option.isSome_iff_exists.mp this

lemma cumDist_headD (pts : List Point) : (cumDist pts).headD 0 = 0 := by
  cases pts <;> rfl

lemma getLastD_eq_getD :
    ∀ (l : List ℝ), l ≠ [] → l.getLastD 0 = l.getD (l.length - 1) 0
  | [], h => absurd rfl h
  | [a], _ => rfl
  | a :: b :: rest, _ => by
    have ih := getLastD_eq_getD (b :: rest) (by simp)
    simpa [List.getLastD] using ih

lemma cumDist_getLastD_nonneg (pts : List Point) :
    0 ≤ (cumDist pts).getLastD 0 := by
  cases pts with
  | nil => norm_num [cumDist, List.getLastD]
  | cons p rest =>
    have hne : cumDist (p :: rest) ≠ [] := by simp [cumDist]
    rw [getLastD_eq_getD _ hne]
    apply cumDist_getD_nonneg
    have hl := cumDist_length (show p :: rest ≠ [] by simp)
    simp only [hl]
    simp

lemma chain_ne_getD {pts : List Point}
    (hchain : List.Chain' (fun p q : Point => p ≠ q) pts) {j : ℕ}
    (h : j + 1 < pts.length) :
    pts.getD j ((0:ℝ), (0:ℝ)) ≠ pts.getD (j + 1) ((0:ℝ), (0:ℝ)) := by
  have hj : j < pts.length := Nat.lt_of_succ_lt h
  rw [List.getD_eq_get pts _ hj, List.getD_eq_get pts _ h]
  exact List.chain'_iff_get.mp hchain j (by omega)

lemma dir_norm_pos {p1 p2 : Point} (h : p1 ≠ p2) :
    0 < Real.sqrt ((p2.1 - p1.1) ^ 2 + (p2.2 - p1.2) ^ 2) := by
  rw [Real.sqrt_pos]
  refine sumSqPos fun hc => h ?_
  have h1 : p1.1 = p2.1 := by linarith [hc.1]
  have h2 : p1.2 = p2.2 := by linarith [hc.2]
  exact Prod.ext h1 h2

lemma placeBoundary_isSome {pts : List Point} {W target : ℝ}
    (h2 : 2 ≤ pts.length)
    (hchain : List.Chain' (fun p q : Point => p ≠ q) pts)
    (h0 : 0 ≤ target) (hL : target ≤ (cumDist pts).getLastD 0) (i : ℕ) :
    (placeBoundary pts (cumDist pts) W i target).isSome = true := by
  have hne : pts ≠ [] := by rintro rfl; simp at h2
  have hlen : (cumDist pts).length = pts.length := cumDist_length hne
  obtain ⟨j, hj⟩ := @findInterval_isSome (cumDist pts) target
    (by omega) (by rw [cumDist_headD]; exact h0) hL
  obtain ⟨hjlen, _, _⟩ := findInterval_spec hj
  have hjp : j + 1 < pts.length := by omega
  have hne2 := chain_ne_getD hchain hjp
  have hn := dir_norm_pos hne2
  simp only [placeBoundary, hj, if_pos hn, Option.isSome_some]

lemma filterMap_length_all {α β : Type} (f : α → Option β) :
    ∀ l : List α, (∀ a ∈ l, (f a).isSome = true) →
      (l.filterMap f).length = l.length
  | [], _ => rfl
  | a :: l, h => by
    obtain ⟨b, hb⟩ := Option.isSome_iff_exists.mp (h a (List.mem_cons_self a l))
    simp only [List.filterMap_cons, hb, List.length_cons]
    rw [filterMap_length_all f l fun x hx => h x (List.mem_cons_of_mem a hx)]

/-- The segment record built in the emitting branch of the placement
loop (main.py:222-228), for interval index `j`. -/
noncomputable def mkSeg (pts : List Point) (dists : List ℝ) (W : ℝ)
    (i j : ℕ) (target : ℝ) : Segment :=
  let dj := dists.getD j 0
  let dj1 := dists.getD (j + 1) 0
  let t := (target - dj) / (dj1 - dj)
  let p1 := pts.getD j ((0:ℝ), (0:ℝ))
  let p2 := pts.getD (j + 1) ((0:ℝ), (0:ℝ))
  let c : Point := (p1.1 + t * (p2.1 - p1.1), p1.2 + t * (p2.2 - p1.2))
  let d : Point := (p2.1 - p1.1, p2.2 - p1.2)
  let n := Real.sqrt (d.1 ^ 2 + d.2 ^ 2)
  let u : Point := (d.1 / n, d.2 / n)
  let perp : Point := (-u.2, u.1)
  { segment_number := i, center_point := c,
    line_start := (c.1 - perp.1 * (W / 2), c.2 - perp.2 * (W / 2)),
    line_end := (c.1 + perp.1 * (W / 2), c.2 + perp.2 * (W / 2)),
    distance := target }

lemma placeBoundary_inv {pts : List Point} {dists : List ℝ} {W : ℝ}
    {i : ℕ} {target : ℝ} {seg : Segment}
    (h : placeBoundary pts dists W i target = some seg) :
    ∃ j, findInterval dists target = some j
      ∧ 0 < Real.sqrt
          (((pts.getD (j + 1) ((0:ℝ), (0:ℝ))).1 - (pts.getD j ((0:ℝ), (0:ℝ))).1) ^ 2
            + ((pts.getD (j + 1) ((0:ℝ), (0:ℝ))).2 - (pts.getD j ((0:ℝ), (0:ℝ))).2) ^ 2)
      ∧ seg = mkSeg pts dists W i j target := by
  cases hfi : findInterval dists target with
  | none =>
    simp only [placeBoundary, hfi] at h
    exact Option.noConfusion h
  | some j =>
    simp only [placeBoundary, hfi] at h
    by_cases hn : 0 < Real.sqrt
        (((pts.getD (j + 1) ((0:ℝ), (0:ℝ))).1 - (pts.getD j ((0:ℝ), (0:ℝ))).1) ^ 2
          + ((pts.getD (j + 1) ((0:ℝ), (0:ℝ))).2 - (pts.getD j ((0:ℝ), (0:ℝ))).2) ^ 2)
    · rw [if_pos hn] at h
      exact ⟨j, rfl, hn, (Option.some.inj h).symm⟩
    · rw [if_neg hn] at h
      exact absurd h (by simp)

lemma ptDist_shift (a b x y : ℝ) :
    ptDist (a - x, b - y) (a, b) = Real.sqrt (x ^ 2 + y ^ 2) := by
  unfold ptDist
  congr 1
  ring

lemma ptDist_shift2 (a b x y : ℝ) :
    ptDist (a + x, b + y) (a, b) = Real.sqrt (x ^ 2 + y ^ 2) := by
  unfold ptDist
  congr 1
  ring

lemma sqrtScaled2 (a x y : ℝ) (h : x ^ 2 + y ^ 2 = 1) :
    Real.sqrt ((x * a) ^ 2 + (y * a) ^ 2) = |a| := by
  have hx : (x * a) ^ 2 + (y * a) ^ 2 = (a * x) ^ 2 + (a * y) ^ 2 := by ring
  rw [hx]
  exact sqrtScaled a x y h

lemma mkSeg_geometry (pts : List Point) (dists : List ℝ) (W : ℝ)
    (i j : ℕ) (target : ℝ) (hW : 0 < W)
    (hn : 0 < Real.sqrt
        (((pts.getD (j + 1) ((0:ℝ), (0:ℝ))).1 - (pts.getD j ((0:ℝ), (0:ℝ))).1) ^ 2
          + ((pts.getD (j + 1) ((0:ℝ), (0:ℝ))).2 - (pts.getD j ((0:ℝ), (0:ℝ))).2) ^ 2)) :
    ptDist (mkSeg pts dists W i j target).line_start
        (mkSeg pts dists W i j target).center_point = W / 2
    ∧ ptDist (mkSeg pts dists W i j target).line_end
        (mkSeg pts dists W i j target).center_point = W / 2
    ∧ (mkSeg pts dists W i j target).center_point.1 =
        ((mkSeg pts dists W i j target).line_start.1
          + (mkSeg pts dists W i j target).line_end.1) / 2
    ∧ (mkSeg pts dists W i j target).center_point.2 =
        ((mkSeg pts dists W i j target).line_start.2
          + (mkSeg pts dists W i j target).line_end.2) / 2
    ∧ ((mkSeg pts dists W i j target).line_end.1
          - (mkSeg pts dists W i j target).line_start.1)
        * ((pts.getD (j + 1) ((0:ℝ), (0:ℝ))).1 - (pts.getD j ((0:ℝ), (0:ℝ))).1)
      + ((mkSeg pts dists W i j target).line_end.2
          - (mkSeg pts dists W i j target).line_start.2)
        * ((pts.getD (j + 1) ((0:ℝ), (0:ℝ))).2 - (pts.getD j ((0:ℝ), (0:ℝ))).2) = 0
    ∧ (mkSeg pts dists W i j target).distance = target
    ∧ (mkSeg pts dists W i j target).segment_number = i := by
  have hunit : (-(((pts.getD (j + 1) ((0:ℝ), (0:ℝ))).2 - (pts.getD j ((0:ℝ), (0:ℝ))).2) /
        Real.sqrt
          (((pts.getD (j + 1) ((0:ℝ), (0:ℝ))).1 - (pts.getD j ((0:ℝ), (0:ℝ))).1) ^ 2
            + ((pts.getD (j + 1) ((0:ℝ), (0:ℝ))).2 - (pts.getD j ((0:ℝ), (0:ℝ))).2) ^ 2))) ^ 2
      + (((pts.getD (j + 1) ((0:ℝ), (0:ℝ))).1 - (pts.getD j ((0:ℝ), (0:ℝ))).1) /
        Real.sqrt
          (((pts.getD (j + 1) ((0:ℝ), (0:ℝ))).1 - (pts.getD j ((0:ℝ), (0:ℝ))).1) ^ 2
            + ((pts.getD (j + 1) ((0:ℝ), (0:ℝ))).2 - (pts.getD j ((0:ℝ), (0:ℝ))).2) ^ 2)) ^ 2 = 1 :=
    unitPerpSq _ _ hn
  refine ⟨?_, ?_, ?_, ?_, ?_, rfl, rfl⟩
  · simp only [mkSeg]
    rw [ptDist_shift, sqrtScaled2 _ _ _ hunit, abs_of_pos (by linarith)]
  · simp only [mkSeg]
    rw [ptDist_shift2, sqrtScaled2 _ _ _ hunit, abs_of_pos (by linarith)]
  · simp only [mkSeg]
    ring
  · simp only [mkSeg]
    ring
  · simp only [mkSeg]
    ring

/-! ## Renumbering and trim lemmas -/

lemma renumberFrom_length : ∀ (l : List Segment) (k : ℕ),
    (renumberFrom k l).length = l.length
  | [], _ => rfl
  | s :: rest, k => by
    simp only [renumberFrom, List.length_cons, renumberFrom_length rest (k + 1)]

lemma renumberFrom_map_number : ∀ (l : List Segment) (k : ℕ),
    (renumberFrom k l).map (fun s => s.segment_number) = List.range' k l.length
  | [], _ => rfl
  | s :: rest, k => by
    simp only [renumberFrom, List.map_cons, List.length_cons,
      List.range'_succ, renumberFrom_map_number rest (k + 1)]

lemma mem_renumberFrom : ∀ {l : List Segment} {k : ℕ} {s' : Segment},
    s' ∈ renumberFrom k l → ∃ s ∈ l, s'.center_point = s.center_point
      ∧ s'.line_start = s.line_start ∧ s'.line_end = s.line_end
      ∧ s'.distance = s.distance
  | [], _, _, h => by simp [renumberFrom] at h
  | s :: rest, k, s', h => by
    rcases List.mem_cons.mp h with h1 | h2
    · exact ⟨s, List.mem_cons_self s rest, by rw [h1], by rw [h1], by rw [h1],
        by rw [h1]⟩
    · obtain ⟨x, hx, h⟩ := mem_renumberFrom h2
      exact ⟨x, List.mem_cons_of_mem s hx, h⟩

lemma trimClosed_subset (pts : List Point) (W S : ℝ) (divs : List Segment) :
    ∀ x ∈ trimClosed pts W S divs, x ∈ divs := by
  intro x hx
  unfold trimClosed at hx
  split_ifs at hx
  all_goals first
    | exact hx
    | exact (List.dropLast_sublist divs).subset hx

lemma trimClosed_cases (pts : List Point) (W S : ℝ) (divs : List Segment) :
    trimClosed pts W S divs = divs ∨ trimClosed pts W S divs = divs.dropLast := by
  unfold trimClosed
  split_ifs
  all_goals first | exact Or.inl rfl | exact Or.inr rfl

/-! ## Fallback-offset lemmas -/

lemma tangentAt_isSome {pts : List Point} {i : ℕ}
    (h2 : 2 ≤ pts.length) (hi : i < pts.length) :
    ∃ d, tangentAt pts i = some d := by
  refine Option.isSome_iff_exists.mp ?_
  have hc : pts[i]? = some pts[i] := List.getElem?_eq_getElem hi
  by_cases h0 : i = 0
  · subst h0
    have h1 : pts[1]? = some pts[1] := List.getElem?_eq_getElem (by omega)
    simp [tangentAt, hc, h1]
  · by_cases hlast : i = pts.length - 1
    · have h1 : pts[i - 1]? = some pts[i - 1] := List.getElem?_eq_getElem (by omega)
      simp only [tangentAt, hc]
      rw [if_neg h0, if_pos hlast]
      rw [show pts[i - 1]? = some pts[i - 1] from h1]
      simp
    · have h1 : pts[i - 1]? = some pts[i - 1] := List.getElem?_eq_getElem (by omega)
      have h3 : pts[i + 1]? = some pts[i + 1] := List.getElem?_eq_getElem (by omega)
      simp only [tangentAt, hc]
      rw [if_neg h0, if_neg hlast, h1, h3]
      simp

lemma sqrt_sum_sq_pos_iff (x y : ℝ) :
    0 < Real.sqrt (x ^ 2 + y ^ 2) ↔ ¬(x = 0 ∧ y = 0) := by
  rw [Real.sqrt_pos]
  constructor
  · rintro h ⟨rfl, rfl⟩
    norm_num at h
  · exact sumSqPos

lemma offsetAt_cases {pts : List Point} {off : ℝ} {i : ℕ} {current d : Point}
    (hc : pts[i]? = some current) (hd : tangentAt pts i = some d) :
    (¬(d.1 = 0 ∧ d.2 = 0) ∧ offsetAt pts off i =
        .ok (some ((current.1 + -(d.2 / Real.sqrt (d.1 ^ 2 + d.2 ^ 2)) * off,
                    current.2 + d.1 / Real.sqrt (d.1 ^ 2 + d.2 ^ 2) * off),
                   (current.1 - -(d.2 / Real.sqrt (d.1 ^ 2 + d.2 ^ 2)) * off,
                    current.2 - d.1 / Real.sqrt (d.1 ^ 2 + d.2 ^ 2) * off))))
    ∨ ((d.1 = 0 ∧ d.2 = 0) ∧ offsetAt pts off i = .ok none) := by
  by_cases hz : d.1 = 0 ∧ d.2 = 0
  · right
    refine ⟨hz, ?_⟩
    have hn : ¬(0 < Real.sqrt (d.1 ^ 2 + d.2 ^ 2)) := by
      rw [sqrt_sum_sq_pos_iff]
      simpa using hz
    simp only [offsetAt, hc, hd, if_neg hn]
  · left
    refine ⟨hz, ?_⟩
    have hn : 0 < Real.sqrt (d.1 ^ 2 + d.2 ^ 2) := (sqrt_sum_sq_pos_iff _ _).mpr hz
    simp only [offsetAt, hc, hd, if_pos hn]

lemma offsetAt_isOk {pts : List Point} {off : ℝ} {i : ℕ}
    (h2 : 2 ≤ pts.length) (hi : i < pts.length) :
    ∃ o, offsetAt pts off i = .ok o := by
  have hc : pts[i]? = some pts[i] := List.getElem?_eq_getElem hi
  obtain ⟨d, hd⟩ := tangentAt_isSome h2 hi
  rcases offsetAt_cases hc hd with ⟨_, h⟩ | ⟨_, h⟩
  · exact ⟨_, h⟩
  · exact ⟨_, h⟩

lemma offsetAtCk_eq (pts : List Point) (off : ℝ) (i : ℕ) :
    offsetAtCk pts off i = some (offsetAt pts off i) := by
  cases hc : pts[i]? with
  | none => simp only [offsetAtCk, offsetAt, hc]
  | some current =>
    cases hd : tangentAt pts i with
    | none => simp only [offsetAtCk, offsetAt, hc, hd]
    | some d =>
      by_cases hn : 0 < Real.sqrt (d.1 ^ 2 + d.2 ^ 2)
      · have hnz : Real.sqrt (d.1 ^ 2 + d.2 ^ 2) ≠ 0 := ne_of_gt hn
        simp only [offsetAtCk, offsetAt, hc, hd, if_pos hn, divCk, if_neg hnz]
      · simp only [offsetAtCk, offsetAt, hc, hd, if_neg hn]

lemma collectOffsets_ok {pts : List Point} {off : ℝ} :
    ∀ {js : List ℕ}, (∀ i ∈ js, ∃ o, offsetAt pts off i = .ok o) →
      ∃ l, collectOffsets pts off js = .ok l ∧ l.length ≤ js.length
  | [], _ => ⟨[], rfl, by simp⟩
  | i :: rest, h => by
    obtain ⟨o, ho⟩ := h i (List.mem_cons_self i rest)
    obtain ⟨l, hl, hlen⟩ := collectOffsets_ok
      (fun x hx => h x (List.mem_cons_of_mem i hx))
    cases o with
    | none =>
      refine ⟨l, ?_, by simpa using Nat.le_succ_of_le hlen⟩
      simp only [collectOffsets, ho, hl]
    | some pr =>
      refine ⟨pr :: l, ?_, by simpa using hlen⟩
      simp only [collectOffsets, ho, hl]

lemma collectOffsets_mem {pts : List Point} {off : ℝ} :
    ∀ {js : List ℕ} {l : List (Point × Point)},
      collectOffsets pts off js = .ok l →
      ∀ pr ∈ l, ∃ i ∈ js, offsetAt pts off i = .ok (some pr)
  | [], l, h, pr, hpr => by
    simp only [collectOffsets] at h
    cases h
    simp at hpr
  | i :: rest, l, h, pr, hpr => by
    cases ho : offsetAt pts off i with
    | error e =>
      simp only [collectOffsets, ho] at h
      exact Except.noConfusion h
    | ok o =>
      cases o with
      | none =>
        simp only [collectOffsets, ho] at h
        obtain ⟨x, hx, hh⟩ := collectOffsets_mem h pr hpr
        exact ⟨x, List.mem_cons_of_mem i hx, hh⟩
      | some pr' =>
        simp only [collectOffsets, ho] at h
        cases hrec : collectOffsets pts off rest with
        | error e =>
          rw [hrec] at h
          exact Except.noConfusion h
        | ok l' =>
          rw [hrec] at h
          have hl : pr' :: l' = l := by
            cases h
            rfl
          subst hl
          rcases List.mem_cons.mp hpr with h1 | h2
          · subst h1
            exact ⟨i, List.mem_cons_self i rest, ho⟩
          · obtain ⟨x, hx, hh⟩ := collectOffsets_mem hrec pr h2
            exact ⟨x, List.mem_cons_of_mem i hx, hh⟩

/-! ## Concrete evaluations used by witnesses and counterexamples -/

lemma evalCum : cumDist [((2:ℝ),(1:ℝ)), ((3:ℝ),(1:ℝ))] = [0, 1] := by
  norm_num [cumDist, cumDistAux, ptDist]

lemma evalPlace :
    placeBoundary [((2:ℝ),(1:ℝ)), ((3:ℝ),(1:ℝ))] [(0:ℝ), 1] 200 0 0 =
    some { segment_number := 0, center_point := ((2:ℝ),(1:ℝ)),
           line_start := ((2:ℝ), (-99:ℝ)), line_end := ((2:ℝ), (101:ℝ)),
           distance := 0 } := by
  norm_num [placeBoundary, findInterval, findIntervalAux]

lemma evalRangeOne : List.range 1 = [0] := rfl

lemma evalPre : preTrim [((2:ℝ),(1:ℝ)), ((3:ℝ),(1:ℝ))] 200 2 =
    [{ segment_number := 0, center_point := ((2:ℝ),(1:ℝ)),
       line_start := ((2:ℝ), (-99:ℝ)), line_end := ((2:ℝ), (101:ℝ)),
       distance := 0 }] := by
  have h2 : truncInt (([(0:ℝ), 1].getLastD 0) / 2) = 0 := by
    norm_num [truncInt, List.getLastD]
  simp only [preTrim, evalCum, h2]
  norm_num
  simp only [evalRangeOne, List.filterMap_cons, List.filterMap_nil,
    Nat.cast_zero, zero_mul]
  rw [evalPlace]

lemma evalDivide : divideTrack [((2:ℝ),(1:ℝ)), ((3:ℝ),(1:ℝ))] 200 2 =
    .ok [{ segment_number := 1, center_point := ((2:ℝ),(1:ℝ)),
           line_start := ((2:ℝ), (-99:ℝ)), line_end := ((2:ℝ), (101:ℝ)),
           distance := 0 }] := by
  have hne : ([((2:ℝ),(1:ℝ)), ((3:ℝ),(1:ℝ))] : List Point) ≠ [] := by simp
  simp only [divideTrack, if_neg hne, evalPre]
  norm_num [trimClosed, renumber, renumberFrom]

lemma divideSinglePoint (p : Point) (W S : ℝ) :
    divideTrack [p] W S = .ok [] := by
  have hne : ([p] : List Point) ≠ [] := by simp
  simp [divideTrack, if_neg hne, preTrim, cumDist, cumDistAux, truncInt,
    trimClosed, renumber, renumberFrom, placeBoundary, findInterval,
    findIntervalAux, List.getLastD, evalRangeOne]

lemma evalCk : placeBoundaryCk [((2:ℝ),(1:ℝ)), ((2:ℝ),(1:ℝ)), ((3:ℝ),(1:ℝ))]
    (cumDist [((2:ℝ),(1:ℝ)), ((2:ℝ),(1:ℝ)), ((3:ℝ),(1:ℝ))]) 5 0 0 = none := by
  norm_num [placeBoundaryCk, cumDist, cumDistAux, ptDist, findInterval,
    findIntervalAux, divCk]

lemma evalManualCex :
    manualOffset [((2:ℝ),(1:ℝ)), ((3:ℝ),(1:ℝ)), ((2:ℝ),(1:ℝ))] 5 =
    .ok ([((2:ℝ),(6:ℝ)), ((2:ℝ),(-4:ℝ))], [((2:ℝ),(-4:ℝ)), ((2:ℝ),(6:ℝ))]) := by
  norm_num [manualOffset, collectOffsets, offsetAt, tangentAt, List.range_succ]

lemma evalManualW :
    manualOffset [((2:ℝ),(1:ℝ)), ((3:ℝ),(1:ℝ))] (2 / 2) =
    .ok ([((2:ℝ),(2:ℝ)), ((3:ℝ),(2:ℝ))], [((2:ℝ),(0:ℝ)), ((3:ℝ),(0:ℝ))]) := by
  norm_num [manualOffset, collectOffsets, offsetAt, tangentAt, List.range_succ]

lemma ptDist_zero_iff {p q : Point} : ptDist p q = 0 ↔ p = q := by
  constructor
  · intro h
    unfold ptDist at h
    have harg : (q.1 - p.1) ^ 2 + (q.2 - p.2) ^ 2 = 0 :=
      (Real.sqrt_eq_zero (by positivity)).mp h
    have h1 : (q.1 - p.1) ^ 2 = 0 := by nlinarith [sq_nonneg (q.1 - p.1), sq_nonneg (q.2 - p.2)]
    have h2 : (q.2 - p.2) ^ 2 = 0 := by nlinarith [sq_nonneg (q.1 - p.1), sq_nonneg (q.2 - p.2)]
    have e1 : q.1 = p.1 := by nlinarith [h1]
    have e2 : q.2 = p.2 := by nlinarith [h2]
    exact (Prod.ext e1 e2).symm
  · exact ptDist_eq_zero

lemma ptDist_comm (p q : Point) : ptDist p q = ptDist q p := by
  unfold ptDist
  congr 1
  ring

/-! ## Claim theorems -/

/-- C1, counterexample: for the two-point centerline `[(2,1), (3,1)]`
(total length 1) and `segment_length = 2`, `floor(L/S) = 0`, yet the
pre-trim placement and the final result both contain one boundary (at
arc distance 0) — not the empty sequence the claim asserts for
`floor(L/S) == 0`. -/
theorem c1_count_cex :
    ⌊(cumDist [((2:ℝ),(1:ℝ)), ((3:ℝ),(1:ℝ))]).getLastD 0 / 2⌋ = 0
    ∧ (preTrim [((2:ℝ),(1:ℝ)), ((3:ℝ),(1:ℝ))] 200 2).length = 1
    ∧ ∃ segs, divideTrack [((2:ℝ),(1:ℝ)), ((3:ℝ),(1:ℝ))] 200 2 = .ok segs
        ∧ segs.length = 1 := by
  refine ⟨?_, ?_, ⟨_, evalDivide, rfl⟩⟩
  · rw [evalCum]
    norm_num [List.getLastD]
  · simp [evalPre]

/-- C1 (amended): for a centerline with at least 2 points, no two
consecutive points equal and `segment_length = S > 0`, the placement
loop before the closed-loop trim produces exactly `floor(L/S) + 1`
boundaries (so for `floor(L/S) = 0` it produces one boundary at arc
distance 0, not an empty sequence), and the Segmenter returns without
error. -/
theorem c1_pretrim_count (pts : List Point) (W S : ℝ) (h2 : 2 ≤ pts.length)
    (hchain : List.Chain' (fun p q : Point => p ≠ q) pts) (hS : 0 < S) :
    (preTrim pts W S).length = (⌊(cumDist pts).getLastD 0 / S⌋).toNat + 1
    ∧ ∃ segs, divideTrack pts W S = .ok segs := by
  have hne : pts ≠ [] := by rintro rfl; simp at h2
  have hL : 0 ≤ (cumDist pts).getLastD 0 := cumDist_getLastD_nonneg pts
  have hLS : 0 ≤ (cumDist pts).getLastD 0 / S := div_nonneg hL hS.le
  have hfl : 0 ≤ ⌊(cumDist pts).getLastD 0 / S⌋ := Int.floor_nonneg.mpr hLS
  have htr : truncInt ((cumDist pts).getLastD 0 / S)
      = ⌊(cumDist pts).getLastD 0 / S⌋ := by
    unfold truncInt
    rw [if_pos hLS]
  constructor
  · unfold preTrim
    rw [htr]
    have hN : (⌊(cumDist pts).getLastD 0 / S⌋ + 1).toNat
        = (⌊(cumDist pts).getLastD 0 / S⌋).toNat + 1 := by omega
    rw [hN]
    rw [filterMap_length_all _ _ ?_]
    · exact List.length_range _
    · intro i hi
      have hilt : i < (⌊(cumDist pts).getLastD 0 / S⌋).toNat + 1 :=
        List.mem_range.mp hi
      have hile : (i : ℤ) ≤ ⌊(cumDist pts).getLastD 0 / S⌋ := by
        rw [← Int.le_toNat hfl]
        omega
      have hire : (i : ℝ) ≤ (cumDist pts).getLastD 0 / S := by
        have := Int.le_floor.mp hile
        simpa using this
      have htle : (i : ℝ) * S ≤ (cumDist pts).getLastD 0 :=
        (le_div_iff₀ hS).mp hire
      exact placeBoundary_isSome h2 hchain (by positivity) htle i
  · exact ⟨renumber (trimClosed pts W S (preTrim pts W S)),
      by simp [divideTrack, if_neg hne]⟩

/-- Witness for C1 (amended) at the concrete two-point centerline. -/
theorem c1_pretrim_count_witness :
    2 ≤ ([((2:ℝ),(1:ℝ)), ((3:ℝ),(1:ℝ))] : List Point).length
    ∧ List.Chain' (fun p q : Point => p ≠ q) [((2:ℝ),(1:ℝ)), ((3:ℝ),(1:ℝ))]
    ∧ (0:ℝ) < 1
    ∧ ((preTrim [((2:ℝ),(1:ℝ)), ((3:ℝ),(1:ℝ))] 7 1).length
        = (⌊(cumDist [((2:ℝ),(1:ℝ)), ((3:ℝ),(1:ℝ))]).getLastD 0 / 1⌋).toNat + 1
      ∧ ∃ segs, divideTrack [((2:ℝ),(1:ℝ)), ((3:ℝ),(1:ℝ))] 7 1 = .ok segs) :=
  ⟨by norm_num,
   by simp [List.chain'_cons, Prod.ext_iff],
   by norm_num,
   c1_pretrim_count _ 7 1 (by norm_num)
     (by simp [List.chain'_cons, Prod.ext_iff]) (by norm_num)⟩

lemma trimClosed_eq (pts : List Point) (W S : ℝ) (divs : List Segment)
    (h : pts ≠ []) :
    trimClosed pts W S divs =
      if ptDist (pts.headD ((0:ℝ),(0:ℝ))) (pts.getLastD ((0:ℝ),(0:ℝ))) < W
          ∧ 2 ≤ divs.length
          ∧ ptDist (divs.headD segDefault).center_point
              (divs.getLastD segDefault).center_point < S
      then divs.dropLast else divs := by
  have h0 : 0 < pts.length := List.length_pos.mpr h
  have hiff : 1 < divs.length ↔ 2 ≤ divs.length := by omega
  unfold trimClosed
  rw [if_pos h0]
  split_ifs <;> tauto

/-- C2: the closed-loop trim drops exactly the last boundary when the
three conditions hold (last centerline point within `track_width` of
the first, at least 2 boundaries placed, last boundary center within
`segment_length` of the first boundary center), and leaves the
boundary list unchanged otherwise — so it never removes more than one
boundary and never removes any other boundary. -/
theorem c2_trim_exact (pts : List Point) (W S : ℝ) (h : pts ≠ []) :
    divideTrack pts W S = .ok (renumber (
      if ptDist (pts.getLastD ((0:ℝ),(0:ℝ))) (pts.headD ((0:ℝ),(0:ℝ))) < W
          ∧ 2 ≤ (preTrim pts W S).length
          ∧ ptDist ((preTrim pts W S).getLastD segDefault).center_point
              ((preTrim pts W S).headD segDefault).center_point < S
      then (preTrim pts W S).dropLast
      else preTrim pts W S)) := by
  simp only [divideTrack, if_neg h, trimClosed_eq pts W S (preTrim pts W S) h]
  rw [ptDist_comm (pts.headD ((0:ℝ),(0:ℝ))) (pts.getLastD ((0:ℝ),(0:ℝ))),
    ptDist_comm ((preTrim pts W S).headD segDefault).center_point
      ((preTrim pts W S).getLastD segDefault).center_point]

/-- Witness for C2 at the concrete two-point centerline. -/
theorem c2_trim_exact_witness :
    ([((2:ℝ),(1:ℝ)), ((3:ℝ),(1:ℝ))] : List Point) ≠ []
    ∧ ∃ out, divideTrack [((2:ℝ),(1:ℝ)), ((3:ℝ),(1:ℝ))] 200 2 = .ok out :=
  ⟨by simp, ⟨_, c2_trim_exact [((2:ℝ),(1:ℝ)), ((3:ℝ),(1:ℝ))] 200 2 (by simp)⟩⟩

/-- C3, counterexample: for the one-point centerline `[(2,1)]` the
Segmenter does not fail — `divide_track_into_segments` silently
returns an (empty) segment list, with no error raised, contradicting
the claim that it fails with GeometryError. -/
theorem c3_single_point_cex :
    divideTrack [((2:ℝ),(1:ℝ))] 200 400 = .ok [] :=
  divideSinglePoint ((2:ℝ),(1:ℝ)) 200 400

/-- C3 (amended): for a one-point centerline the BorderOffsetter fails
with GeometryError (the geometry library rejects a line of fewer than
2 points before any border is produced, whatever the primary offset
algorithm does), while the Segmenter returns the empty segment
sequence without error. -/
theorem c3_single_point
    (primary : List Point → ℝ → Except Unit (List Point × List Point))
    (p : Point) (W S : ℝ) :
    generateTrackBorders primary [p] W = .error .geometryError
    ∧ divideTrack [p] W S = .ok [] := by
  constructor
  · have hne : ([p] : List Point) ≠ [] := by simp
    simp [generateTrackBorders, hne]
  · exact divideSinglePoint p W S

/-- C4: every segment the Segmenter returns has `line_start` and
`line_end` each at distance exactly `track_width / 2` from
`center_point`, with `center_point` the midpoint of the cut-line (so
the three points are collinear with the center between the ends), and
the cut-line is perpendicular to the direction
`points[j+1] - points[j]` of the arc-length interval found for the
segment's arc distance. -/
theorem c4_segment_geometry (pts : List Point) (W S : ℝ)
    (segs : List Segment) (hW : 0 < W)
    (hok : divideTrack pts W S = .ok segs) :
    ∀ seg ∈ segs, ∃ j, findInterval (cumDist pts) seg.distance = some j
      ∧ j + 1 < pts.length
      ∧ (cumDist pts).getD j 0 ≤ seg.distance
      ∧ seg.distance ≤ (cumDist pts).getD (j + 1) 0
      ∧ ptDist seg.line_start seg.center_point = W / 2
      ∧ ptDist seg.line_end seg.center_point = W / 2
      ∧ seg.center_point.1 = (seg.line_start.1 + seg.line_end.1) / 2
      ∧ seg.center_point.2 = (seg.line_start.2 + seg.line_end.2) / 2
      ∧ (seg.line_end.1 - seg.line_start.1)
          * ((pts.getD (j + 1) ((0:ℝ),(0:ℝ))).1 - (pts.getD j ((0:ℝ),(0:ℝ))).1)
        + (seg.line_end.2 - seg.line_start.2)
          * ((pts.getD (j + 1) ((0:ℝ),(0:ℝ))).2 - (pts.getD j ((0:ℝ),(0:ℝ))).2)
        = 0 := by
  have hne : pts ≠ [] := by
    rintro rfl
    simp [divideTrack] at hok
  have hsegs : renumber (trimClosed pts W S (preTrim pts W S)) = segs := by
    have := hok
    simp only [divideTrack, if_neg hne] at this
    exact Except.ok.inj this
  intro seg hseg
  rw [← hsegs] at hseg
  obtain ⟨s, hsT, hc, hls, hle, hd⟩ := mem_renumberFrom hseg
  have hsPre : s ∈ preTrim pts W S :=
    trimClosed_subset pts W S (preTrim pts W S) s hsT
  obtain ⟨i, hi, hplace⟩ := List.mem_filterMap.mp hsPre
  obtain ⟨j, hj, hn, hs_eq⟩ := placeBoundary_inv hplace
  obtain ⟨g1, g2, g3, g4, g5, g6, _⟩ :=
    mkSeg_geometry pts (cumDist pts) W i j ((i : ℝ) * S) hW hn
  have hdist : seg.distance = (i : ℝ) * S := by
    rw [hd, hs_eq]
    exact g6
  obtain ⟨hjlen, hjle, hjge⟩ := findInterval_spec hj
  have hjp : j + 1 < pts.length := by
    rw [cumDist_length hne] at hjlen
    exact hjlen
  refine ⟨j, ?_, hjp, ?_, ?_, ?_, ?_, ?_, ?_, ?_⟩
  · rw [hdist]
    exact hj
  · rw [hdist]
    exact hjle
  · rw [hdist]
    exact hjge
  · rw [hls, hc, hs_eq]
    exact g1
  · rw [hle, hc, hs_eq]
    exact g2
  · rw [hc, hls, hle, hs_eq]
    exact g3
  · rw [hc, hls, hle, hs_eq]
    exact g4
  · rw [hls, hle, hs_eq]
    exact g5

/-- Witness for C4 at the concrete two-point centerline: the cut-line
end points of the single produced segment are at distance 100 from the
center. -/
theorem c4_segment_geometry_witness :
    (0:ℝ) < 200
    ∧ divideTrack [((2:ℝ),(1:ℝ)), ((3:ℝ),(1:ℝ))] 200 2 =
        .ok [{ segment_number := 1, center_point := ((2:ℝ),(1:ℝ)),
               line_start := ((2:ℝ), (-99:ℝ)), line_end := ((2:ℝ), (101:ℝ)),
               distance := 0 }]
    ∧ ∀ seg ∈ [({ segment_number := 1, center_point := ((2:ℝ),(1:ℝ)),
                  line_start := ((2:ℝ), (-99:ℝ)),
                  line_end := ((2:ℝ), (101:ℝ)),
                  distance := 0 } : Segment)],
        ptDist seg.line_start seg.center_point = 200 / 2 := by
  refine ⟨by norm_num, evalDivide, ?_⟩
  intro seg hseg
  obtain ⟨j, _, _, _, _, g1, _⟩ :=
    c4_segment_geometry [((2:ℝ),(1:ℝ)), ((3:ℝ),(1:ℝ))] 200 2 _
      (by norm_num) evalDivide seg hseg
  exact g1

/-- C5, counterexample: on the centerline `[(2,1), (2,1), (3,1)]`
(consecutive duplicate at the start) the boundary at target arc
distance 0 falls in the degenerate interval `[0, 0]`, and the
placement step computes `t = (0 - 0) / (0 - 0)` — a division by zero
(before the zero-direction guard is reached), contradicting the
claim's parenthetical that no division by zero occurs in the
computation of `t`.  The boundary is nevertheless skipped. -/
theorem c5_divzero_cex :
    placeBoundaryCk [((2:ℝ),(1:ℝ)), ((2:ℝ),(1:ℝ)), ((3:ℝ),(1:ℝ))]
      (cumDist [((2:ℝ),(1:ℝ)), ((2:ℝ),(1:ℝ)), ((3:ℝ),(1:ℝ))]) 5 0 0 = none
    ∧ placeBoundary [((2:ℝ),(1:ℝ)), ((2:ℝ),(1:ℝ)), ((3:ℝ),(1:ℝ))]
      (cumDist [((2:ℝ),(1:ℝ)), ((2:ℝ),(1:ℝ)), ((3:ℝ),(1:ℝ))]) 5 0 0 = none := by
  constructor
  · exact evalCk
  · norm_num [placeBoundary, cumDist, cumDistAux, ptDist, findInterval,
      findIntervalAux]

/-- C5 (amended): either no division by zero occurs in the placement
iteration and the checked iteration agrees with the actual one, or the
interpolation fraction `t` is computed with a zero denominator — which
happens exactly when the located arc-length interval is degenerate
(its two centerline points are equal, i.e. the local direction has
zero length) — and then the boundary is skipped anyway.  Moreover for
every target whose located interval is degenerate, the boundary is
skipped and the division by zero is in `t` (the two guarded
normalisation divisions never divide by zero). -/
theorem c5_divzero_skip (pts : List Point) (W : ℝ) (i : ℕ) (target : ℝ) :
    ((placeBoundaryCk pts (cumDist pts) W i target
        = some (placeBoundary pts (cumDist pts) W i target))
    ∨ (placeBoundaryCk pts (cumDist pts) W i target = none
        ∧ placeBoundary pts (cumDist pts) W i target = none
        ∧ ∃ j, findInterval (cumDist pts) target = some j
            ∧ pts.getD j ((0:ℝ),(0:ℝ)) = pts.getD (j + 1) ((0:ℝ),(0:ℝ))))
    ∧ (∀ j, findInterval (cumDist pts) target = some j →
        pts.getD j ((0:ℝ),(0:ℝ)) = pts.getD (j + 1) ((0:ℝ),(0:ℝ)) →
        placeBoundary pts (cumDist pts) W i target = none
          ∧ placeBoundaryCk pts (cumDist pts) W i target = none) := by
  have hskip : ∀ j, findInterval (cumDist pts) target = some j →
      pts.getD j ((0:ℝ),(0:ℝ)) = pts.getD (j + 1) ((0:ℝ),(0:ℝ)) →
      placeBoundary pts (cumDist pts) W i target = none
        ∧ placeBoundaryCk pts (cumDist pts) W i target = none := by
    intro j hfi hpq
    have hne : pts ≠ [] := by
      rintro rfl
      simp [cumDist, findInterval, findIntervalAux] at hfi
    obtain ⟨hjlen, _, _⟩ := findInterval_spec hfi
    have hjp : j + 1 < pts.length := by
      rw [cumDist_length hne] at hjlen
      exact hjlen
    have hadj : (cumDist pts).getD (j + 1) 0 =
        (cumDist pts).getD j 0
          + ptDist (pts.getD j ((0:ℝ),(0:ℝ))) (pts.getD (j + 1) ((0:ℝ),(0:ℝ))) :=
      cumDist_adj hjp
    have hpd : ptDist (pts.getD j ((0:ℝ),(0:ℝ)))
        (pts.getD (j + 1) ((0:ℝ),(0:ℝ))) = 0 := ptDist_eq_zero hpq
    have hz : (cumDist pts).getD (j + 1) 0 - (cumDist pts).getD j 0 = 0 := by
      rw [hadj, hpd]
      ring
    have hdir : ¬(0 < Real.sqrt
        (((pts.getD (j + 1) ((0:ℝ),(0:ℝ))).1 - (pts.getD j ((0:ℝ),(0:ℝ))).1) ^ 2
          + ((pts.getD (j + 1) ((0:ℝ),(0:ℝ))).2
              - (pts.getD j ((0:ℝ),(0:ℝ))).2) ^ 2)) := by
      rw [sqrt_sum_sq_pos_iff]
      intro hc
      exact hc ⟨by rw [hpq]; ring, by rw [hpq]; ring⟩
    constructor
    · simp only [placeBoundary, hfi, if_neg hdir]
    · simp only [placeBoundaryCk, hfi, divCk, if_pos hz]
  refine ⟨?_, hskip⟩
  cases hfi : findInterval (cumDist pts) target with
  | none =>
    left
    simp only [placeBoundaryCk, placeBoundary, hfi]
  | some j =>
    by_cases hpq : pts.getD j ((0:ℝ),(0:ℝ)) = pts.getD (j + 1) ((0:ℝ),(0:ℝ))
    · right
      obtain ⟨hpl, hck⟩ := hskip j hfi hpq
      exact ⟨hck, hpl, j, rfl, hpq⟩
    · left
      have hne : pts ≠ [] := by
        rintro rfl
        simp [cumDist, findInterval, findIntervalAux] at hfi
      obtain ⟨hjlen, _, _⟩ := findInterval_spec hfi
      have hjp : j + 1 < pts.length := by
        rw [cumDist_length hne] at hjlen
        exact hjlen
      have hadj : (cumDist pts).getD (j + 1) 0 =
          (cumDist pts).getD j 0
            + ptDist (pts.getD j ((0:ℝ),(0:ℝ)))
                (pts.getD (j + 1) ((0:ℝ),(0:ℝ))) := cumDist_adj hjp
      have hz : (cumDist pts).getD (j + 1) 0 - (cumDist pts).getD j 0 ≠ 0 := by
        have hpd : 0 < ptDist (pts.getD j ((0:ℝ),(0:ℝ)))
            (pts.getD (j + 1) ((0:ℝ),(0:ℝ))) := ptDist_pos hpq
        intro hzero
        rw [hadj] at hzero
        linarith
      by_cases hn : 0 < Real.sqrt
          (((pts.getD (j + 1) ((0:ℝ),(0:ℝ))).1 - (pts.getD j ((0:ℝ),(0:ℝ))).1) ^ 2
            + ((pts.getD (j + 1) ((0:ℝ),(0:ℝ))).2
                - (pts.getD j ((0:ℝ),(0:ℝ))).2) ^ 2)
      · have hnz := ne_of_gt hn
        simp only [placeBoundaryCk, placeBoundary, hfi, divCk, if_neg hz,
          if_pos hn, if_neg hnz]
      · simp only [placeBoundaryCk, placeBoundary, hfi, divCk, if_neg hz,
          if_neg hn]

/-- C6, counterexample: on the centerline `[(2,1), (3,1), (2,1)]`
no two consecutive points are equal (no index is duplicate-adjacent),
yet the fallback omits the border points of index 1, whose central
difference `points[2] - points[0]` is zero: the omitted set is the
zero-tangent set, not the duplicate-adjacent set, so "omits exactly
the duplicate-adjacent border points" fails. -/
theorem c6_skip_cex :
    manualOffset [((2:ℝ),(1:ℝ)), ((3:ℝ),(1:ℝ)), ((2:ℝ),(1:ℝ))] 5 =
      .ok ([((2:ℝ),(6:ℝ)), ((2:ℝ),(-4:ℝ))], [((2:ℝ),(-4:ℝ)), ((2:ℝ),(6:ℝ))])
    ∧ (∀ i, ¬ dupAdjacent [((2:ℝ),(1:ℝ)), ((3:ℝ),(1:ℝ)), ((2:ℝ),(1:ℝ))] i) := by
  refine ⟨evalManualCex, ?_⟩
  intro i
  match i with
  | 0 => simp [dupAdjacent, List.getD]
  | 1 => simp [dupAdjacent, List.getD]
  | 2 => simp [dupAdjacent, List.getD]
  | (n + 3) => simp [dupAdjacent]

/-- C6 (amended): for every centerline with at least 2 points the
fallback completes without error and without dividing by zero, and for
every index it emits a border-point pair exactly when the estimated
tangent (one-sided at the two ends, central difference in the
interior) is non-zero — so the omitted indices are exactly the
zero-tangent ones (not, in general, the duplicate-adjacent ones) — and
each border sequence has at most as many points as the centerline. -/
theorem c6_fallback_skip (pts : List Point) (W : ℝ) (h2 : 2 ≤ pts.length) :
    ∃ ps, collectOffsets pts (W / 2) (List.range pts.length) = .ok ps
      ∧ manualOffset pts (W / 2) = .ok (ps.map Prod.fst, ps.map Prod.snd)
      ∧ ps.length ≤ pts.length
      ∧ ∀ i, i < pts.length → ∃ d, tangentAt pts i = some d
          ∧ (offsetAt pts (W / 2) i = .ok none ↔ d.1 = 0 ∧ d.2 = 0)
          ∧ offsetAtCk pts (W / 2) i = some (offsetAt pts (W / 2) i) := by
  have hall : ∀ i ∈ List.range pts.length, ∃ o, offsetAt pts (W / 2) i = .ok o := by
    intro i hi
    exact offsetAt_isOk h2 (List.mem_range.mp hi)
  obtain ⟨ps, hps, hlen⟩ := collectOffsets_ok hall
  refine ⟨ps, hps, ?_, by simpa using hlen, ?_⟩
  · simp only [manualOffset, hps]
  · intro i hi
    obtain ⟨d, hd⟩ := tangentAt_isSome h2 hi
    have hc : pts[i]? = some pts[i] := List.getElem?_eq_getElem hi
    refine ⟨d, hd, ?_, offsetAtCk_eq pts (W / 2) i⟩
    rcases @offsetAt_cases pts (W / 2) i (pts[i]) d hc hd with ⟨hz, h⟩ | ⟨hz, h⟩
    · rw [h]
      exact iff_of_false (by simp) hz
    · rw [h]
      simp [hz]

/-- Witness for C6 (amended) at a concrete two-point centerline. -/
theorem c6_fallback_skip_witness :
    2 ≤ ([((2:ℝ),(1:ℝ)), ((3:ℝ),(1:ℝ))] : List Point).length
    ∧ ∃ ps, collectOffsets [((2:ℝ),(1:ℝ)), ((3:ℝ),(1:ℝ))] (2 / 2)
        (List.range ([((2:ℝ),(1:ℝ)), ((3:ℝ),(1:ℝ))] : List Point).length) = .ok ps
      ∧ manualOffset [((2:ℝ),(1:ℝ)), ((3:ℝ),(1:ℝ))] (2 / 2)
          = .ok (ps.map Prod.fst, ps.map Prod.snd)
      ∧ ps.length ≤ ([((2:ℝ),(1:ℝ)), ((3:ℝ),(1:ℝ))] : List Point).length
      ∧ ∀ i, i < ([((2:ℝ),(1:ℝ)), ((3:ℝ),(1:ℝ))] : List Point).length →
          ∃ d, tangentAt [((2:ℝ),(1:ℝ)), ((3:ℝ),(1:ℝ))] i = some d
            ∧ (offsetAt [((2:ℝ),(1:ℝ)), ((3:ℝ),(1:ℝ))] (2 / 2) i = .ok none
                ↔ d.1 = 0 ∧ d.2 = 0)
            ∧ offsetAtCk [((2:ℝ),(1:ℝ)), ((3:ℝ),(1:ℝ))] (2 / 2) i
                = some (offsetAt [((2:ℝ),(1:ℝ)), ((3:ℝ),(1:ℝ))] (2 / 2) i) :=
  ⟨by norm_num, c6_fallback_skip [((2:ℝ),(1:ℝ)), ((3:ℝ),(1:ℝ))] 2 (by norm_num)⟩

/-- C7: the segment numbers of any sequence the Segmenter returns are
exactly `1, 2, ..., count` in traversal order, with no duplicates and
no gaps, whether or not the closed-loop trim fired or boundaries were
skipped. -/
theorem c7_numbering (pts : List Point) (W S : ℝ) (segs : List Segment)
    (hok : divideTrack pts W S = .ok segs) :
    segs.map (fun s => s.segment_number) = List.range' 1 segs.length := by
  have hne : pts ≠ [] := by
    rintro rfl
    simp [divideTrack] at hok
  have hsegs : renumber (trimClosed pts W S (preTrim pts W S)) = segs := by
    have := hok
    simp only [divideTrack, if_neg hne] at this
    exact Except.ok.inj this
  rw [← hsegs]
  unfold renumber
  rw [renumberFrom_map_number, renumberFrom_length]

/-- Witness for C7 at the concrete two-point centerline. -/
theorem c7_numbering_witness :
    divideTrack [((2:ℝ),(1:ℝ)), ((3:ℝ),(1:ℝ))] 200 2 =
      .ok [{ segment_number := 1, center_point := ((2:ℝ),(1:ℝ)),
             line_start := ((2:ℝ), (-99:ℝ)), line_end := ((2:ℝ), (101:ℝ)),
             distance := 0 }]
    ∧ ([({ segment_number := 1, center_point := ((2:ℝ),(1:ℝ)),
           line_start := ((2:ℝ), (-99:ℝ)), line_end := ((2:ℝ), (101:ℝ)),
           distance := 0 } : Segment)].map (fun s => s.segment_number))
        = List.range' 1
            ([({ segment_number := 1, center_point := ((2:ℝ),(1:ℝ)),
                 line_start := ((2:ℝ), (-99:ℝ)), line_end := ((2:ℝ), (101:ℝ)),
                 distance := 0 } : Segment)].length) :=
  ⟨evalDivide, c7_numbering [((2:ℝ),(1:ℝ)), ((3:ℝ),(1:ℝ))] 200 2 _ evalDivide⟩

/-- C8: `mark_curve` sets `is_curve = true` and the given speed limit
on every segment whose number lies in the inclusive range, leaves each
segment outside the range unchanged (its `is_curve`/`speed_limit` kept,
not reset), preserves the sequence length, and is idempotent. -/
theorem c8_mark_curve (a b v : ℤ) (segs : List Segment) :
    (markCurve a b v segs).length = segs.length
    ∧ List.Forall₂ (fun s t =>
        ((a ≤ (s.segment_number : ℤ) ∧ (s.segment_number : ℤ) ≤ b) →
          t = { s with is_curve := true, speed_limit := some v })
        ∧ (¬(a ≤ (s.segment_number : ℤ) ∧ (s.segment_number : ℤ) ≤ b) →
          t = s)) segs (markCurve a b v segs)
    ∧ markCurve a b v (markCurve a b v segs) = markCurve a b v segs := by
  refine ⟨by simp [markCurve], ?_, ?_⟩
  · induction segs with
    | nil => exact List.Forall₂.nil
    | cons s rest ih =>
      simp only [markCurve, List.map_cons] at ih ⊢
      by_cases hc : a ≤ (s.segment_number : ℤ) ∧ (s.segment_number : ℤ) ≤ b
      · refine List.Forall₂.cons ?_ ih
        rw [if_pos hc]
        exact ⟨fun _ => rfl, fun h => absurd hc h⟩
      · refine List.Forall₂.cons ?_ ih
        rw [if_neg hc]
        exact ⟨fun h => absurd h hc, fun _ => rfl⟩
  · simp only [markCurve, List.map_map]
    refine List.map_eq_map_iff.mpr ?_
    intro s _
    simp only [Function.comp_apply]
    by_cases hc : a ≤ (s.segment_number : ℤ) ∧ (s.segment_number : ℤ) ≤ b
    · rw [if_pos hc, if_pos hc]
    · rw [if_neg hc, if_neg hc]

/-- C9: a reposition update rewrites only the `center_point` of the
(first) segment whose number matches: for every position the
`segment_number`, `line_start`, `line_end`, `distance`, `is_curve` and
`speed_limit` fields are unchanged, every segment with a non-matching
number is entirely unchanged, and the sequence length is preserved. -/
theorem c9_reposition_frame (idn : ℤ) (p : Point) (segs : List Segment) :
    (reposition idn p segs).length = segs.length
    ∧ List.Forall₂ (fun s t =>
        t.segment_number = s.segment_number ∧ t.line_start = s.line_start
        ∧ t.line_end = s.line_end ∧ t.distance = s.distance
        ∧ t.is_curve = s.is_curve ∧ t.speed_limit = s.speed_limit
        ∧ ((s.segment_number : ℤ) ≠ idn → t = s)) segs (reposition idn p segs) := by
  induction segs with
  | nil => exact ⟨rfl, List.Forall₂.nil⟩
  | cons s rest ih =>
    by_cases hc : (s.segment_number : ℤ) = idn
    · have hr : reposition idn p (s :: rest)
          = { s with center_point := p } :: rest := by
        simp only [reposition, if_pos hc]
      rw [hr]
      refine ⟨by simp, List.Forall₂.cons ?_ ?_⟩
      · exact ⟨rfl, rfl, rfl, rfl, rfl, rfl, fun h => absurd hc h⟩
      · refine List.forall₂_same.mpr ?_
        intro x _
        exact ⟨rfl, rfl, rfl, rfl, rfl, rfl, fun _ => rfl⟩
    · have hr : reposition idn p (s :: rest) = s :: reposition idn p rest := by
        simp only [reposition, if_neg hc]
      rw [hr]
      exact ⟨by simp [ih.1], List.Forall₂.cons
        ⟨rfl, rfl, rfl, rfl, rfl, rfl, fun _ => rfl⟩ ih.2⟩

lemma offsetAt_inv {pts : List Point} {off : ℝ} {i : ℕ} {pr : Point × Point}
    (h : offsetAt pts off i = .ok (some pr)) :
    ∃ current d, pts[i]? = some current ∧ tangentAt pts i = some d
      ∧ 0 < Real.sqrt (d.1 ^ 2 + d.2 ^ 2)
      ∧ pr = ((current.1 + -(d.2 / Real.sqrt (d.1 ^ 2 + d.2 ^ 2)) * off,
               current.2 + d.1 / Real.sqrt (d.1 ^ 2 + d.2 ^ 2) * off),
              (current.1 - -(d.2 / Real.sqrt (d.1 ^ 2 + d.2 ^ 2)) * off,
               current.2 - d.1 / Real.sqrt (d.1 ^ 2 + d.2 ^ 2) * off)) := by
  cases hc : pts[i]? with
  | none =>
    simp only [offsetAt, hc] at h
    exact Except.noConfusion h
  | some current =>
    cases hd : tangentAt pts i with
    | none =>
      simp only [offsetAt, hc, hd] at h
      exact Except.noConfusion h
    | some d =>
      by_cases hn : 0 < Real.sqrt (d.1 ^ 2 + d.2 ^ 2)
      · simp only [offsetAt, hc, hd, if_pos hn] at h
        exact ⟨current, d, rfl, rfl, hn,
          (Option.some.inj (Except.ok.inj h)).symm⟩
      · simp only [offsetAt, hc, hd, if_neg hn] at h
        exact Option.noConfusion (Except.ok.inj h)

/-- C10: the fallback's left and right border sequences have equal
length, and each emitted left/right pair mirrors through its
centerline point: the midpoint of the pair is exactly the centerline
point and the distance between the pair is exactly `track_width` (in
exact arithmetic). -/
theorem c10_mirror (pts : List Point) (W : ℝ) (l r : List Point) (hW : 0 < W)
    (hok : manualOffset pts (W / 2) = .ok (l, r)) :
    l.length = r.length
    ∧ ∀ k, k < l.length →
        ∃ i, i < pts.length
          ∧ ((l.getD k ((0:ℝ),(0:ℝ))).1 + (r.getD k ((0:ℝ),(0:ℝ))).1) / 2
              = (pts.getD i ((0:ℝ),(0:ℝ))).1
          ∧ ((l.getD k ((0:ℝ),(0:ℝ))).2 + (r.getD k ((0:ℝ),(0:ℝ))).2) / 2
              = (pts.getD i ((0:ℝ),(0:ℝ))).2
          ∧ ptDist (l.getD k ((0:ℝ),(0:ℝ))) (r.getD k ((0:ℝ),(0:ℝ))) = W := by
  cases hcol : collectOffsets pts (W / 2) (List.range pts.length) with
  | error e =>
    simp only [manualOffset, hcol] at hok
    exact Except.noConfusion hok
  | ok ps =>
    simp only [manualOffset, hcol] at hok
    obtain ⟨hl, hr⟩ := Prod.mk.injEq .. ▸ Except.ok.inj hok
    subst hl
    subst hr
    refine ⟨by simp, ?_⟩
    intro k hk
    have hkps : k < ps.length := by simpa using hk
    have hprmem : ps.get ⟨k, hkps⟩ ∈ ps := List.get_mem ps k hkps
    obtain ⟨i, hiR, hioff⟩ := collectOffsets_mem hcol _ hprmem
    have hi : i < pts.length := List.mem_range.mp hiR
    obtain ⟨current, d, hcur, hd, hn, hpr⟩ := offsetAt_inv hioff
    have hlk : (ps.map Prod.fst).getD k ((0:ℝ),(0:ℝ)) = (ps.get ⟨k, hkps⟩).1 := by
      rw [List.getD_eq_get _ _ (by simpa using hkps)]
      exact List.get_map _
    have hrk : (ps.map Prod.snd).getD k ((0:ℝ),(0:ℝ)) = (ps.get ⟨k, hkps⟩).2 := by
      rw [List.getD_eq_get _ _ (by simpa using hkps)]
      exact List.get_map _
    have hcurD : pts.getD i ((0:ℝ),(0:ℝ)) = current := by
      rw [List.getD_eq_getElem?_getD, hcur]
      rfl
    refine ⟨i, hi, ?_, ?_, ?_⟩
    · rw [hlk, hrk, hpr, hcurD]
      ring
    · rw [hlk, hrk, hpr, hcurD]
      ring
    · rw [hlk, hrk, hpr]
      unfold ptDist
      rw [show ((current.1 - -(d.2 / Real.sqrt (d.1 ^ 2 + d.2 ^ 2)) * (W / 2))
            - (current.1 + -(d.2 / Real.sqrt (d.1 ^ 2 + d.2 ^ 2)) * (W / 2))) ^ 2
          + ((current.2 - d.1 / Real.sqrt (d.1 ^ 2 + d.2 ^ 2) * (W / 2))
            - (current.2 + d.1 / Real.sqrt (d.1 ^ 2 + d.2 ^ 2) * (W / 2))) ^ 2
          = (-(d.2 / Real.sqrt (d.1 ^ 2 + d.2 ^ 2)) * W) ^ 2
            + (d.1 / Real.sqrt (d.1 ^ 2 + d.2 ^ 2) * W) ^ 2 from by ring]
      rw [sqrtScaled2 W _ _ (unitPerpSq d.1 d.2 hn)]
      exact abs_of_pos hW

/-- Witness for C10 at a concrete two-point centerline with
`track_width = 2`. -/
theorem c10_mirror_witness :
    (0:ℝ) < 2
    ∧ manualOffset [((2:ℝ),(1:ℝ)), ((3:ℝ),(1:ℝ))] (2 / 2)
        = .ok ([((2:ℝ),(2:ℝ)), ((3:ℝ),(2:ℝ))], [((2:ℝ),(0:ℝ)), ((3:ℝ),(0:ℝ))])
    ∧ ([((2:ℝ),(2:ℝ)), ((3:ℝ),(2:ℝ))] : List Point).length
        = ([((2:ℝ),(0:ℝ)), ((3:ℝ),(0:ℝ))] : List Point).length :=
  ⟨by norm_num, evalManualW,
   (c10_mirror [((2:ℝ),(1:ℝ)), ((3:ℝ),(1:ℝ))] 2 _ _ (by norm_num) evalManualW).1⟩
